import Mathlib

/-!
Verification development for the CGDs inner linear-algebra engine
(repository files CGDs/cgd_utils.py and src/CGDs/cgd_utils.py; the two
files agree on all code modelled here, with src/CGDs/cgd_utils.py the
superset carrying the distributed backward mode).

Modelling conventions.
* Tensors are flat vectors of rationals (Vec := List ℚ).  Row-major
  flattening (`view(-1)` / `contiguous()`) makes every tensor a flat
  vector, so a parameter is represented by its flattened size.
  Floating-point rounding is outside the scope of the model; all claims
  treated here are structural (control flow, error selection, iteration
  counts, exact algebraic shape of the computed expressions).
* The automatic-differentiation engine (torch.autograd) is an external
  collaborator.  At the solver layer it is abstracted by the two implicit
  linear maps dyx (the action `Hvp_vec(grad_x, y_params, ·)` computes) and
  dxy (`Hvp_vec(grad_y, x_params, ·)`), passed as function parameters.  At
  the oracle layer it is abstracted by an `Autograd` record, see below.
* `Tensor.sqrt` (applied elementwise to the learning-rate vector at entry
  of general_conjugate_gradient) is modelled by an arbitrary elementwise
  function sqrtFn passed as a parameter; no claim depends on its numeric
  values beyond sqrtFn 1 = 1, which real square root satisfies.
* Python's dangling loop variable is modelled faithfully: `for i in
  range(n)` leaves `i` unbound when n ≤ 0, and the later `if i > 99`
  then raises UnboundLocalError.  The loop-state field `i : Option ℕ`
  records the last bound loop index (none when the body never ran).
* grad_x enters the solvers only through its computation graph (dyx) and
  through its shape; the latter is the explicit argument grad_x_len.
-/

abbrev Vec := List ℚ

def addVec (a b : Vec) : Vec := List.zipWith (· + ·) a b

def subVec (a b : Vec) : Vec := List.zipWith (· - ·) a b

def mulVec (a b : Vec) : Vec := List.zipWith (· * ·) a b

def smulVec (c : ℚ) (v : Vec) : Vec := v.map (c * ·)

/-- torch.dot of two flat vectors. -/
def dotVec (a b : Vec) : ℚ := (mulVec a b).sum

def zerosVec (n : ℕ) : Vec := List.replicate n 0

/-- Python exception outcomes visible in the modelled code paths. -/
inductive PyError where
  | valueError (msg : String)
  | runtimeError (msg : String)
  | unboundLocal
deriving DecidableEq, Repr

/-- State of the CG iteration loop shared by both solver variants.
The field i is the Python loop variable: none while it is unbound. -/
structure CgState where
  x : Vec
  r : Vec
  p : Vec
  rdotr : ℚ
  i : Option ℕ
  done : Bool
deriving Repr

/-- One operator application of the unscaled variant, exactly as coded at
conjugate_gradient lines 49-51 and 64-66 (src/CGDs/cgd_utils.py):
h1 = Hvp_vec(grad_x, y_params, v).detach_().mul(lr_y);
h2 = Hvp_vec(grad_y, x_params, h1).detach_().mul(lr_x); result = v + h2,
with lr_x, lr_y scalars. -/
def cg_Avp (dyx dxy : Vec → Vec) (lr_x lr_y : ℚ) (v : Vec) : Vec :=
  let h1 := (dyx v).map (· * lr_y)
  let h2 := (dxy h1).map (· * lr_x)
  addVec v h2

/-- One iteration of the unscaled CG loop (conjugate_gradient lines 62-77).
The search direction p is updated before the convergence test, matching
the source order.  A set done flag models a break that already happened. -/
def cg_step (dyx dxy : Vec → Vec) (lr_x lr_y residual_tol atol : ℚ)
    (st : CgState) (k : ℕ) : CgState :=
  if st.done then st else
    let Avp := cg_Avp dyx dxy lr_x lr_y st.p
    let alpha := st.rdotr / dotVec st.p Avp
    let x := addVec st.x (smulVec alpha st.p)
    let r := addVec st.r (smulVec (-alpha) Avp)
    let new_rdotr := dotVec r r
    let beta := new_rdotr / st.rdotr
    let p := addVec r (smulVec beta st.p)
    { x := x, r := r, p := p, rdotr := new_rdotr, i := some k,
      done := decide (new_rdotr < residual_tol) || decide (new_rdotr < atol) }

/-- Initialization of the unscaled solver (lines 43-53): fresh zero x with
r = b when no warm start; otherwise r = b - A(x0) and one step consumed. -/
def cg_init (dyx dxy : Vec → Vec) (lr_x lr_y : ℚ) (b : Vec)
    (x0 : Option Vec) (nsteps : ℕ) : Vec × Vec × ℕ :=
  match x0 with
  | none => (zerosVec b.length, b, nsteps)
  | some xw => (xw, subVec b (cg_Avp dyx dxy lr_x lr_y xw), nsteps - 1)

/-- The unscaled solver conjugate_gradient (lines 24-80).  Result carries
the returned pair (x, i + 1) plus the slow-convergence warning flag
(warnings.warn fired when i > 99).  grad_x_len is the shape of grad_x;
note the body never reads it: this variant has no shape check. -/
def conjugate_gradient (dyx dxy : Vec → Vec) (grad_x_len : ℕ) (b : Vec)
    (x0 : Option Vec) (nsteps0 : Option ℕ) (tol atol lr_x lr_y : ℚ) :
    Except PyError (Vec × ℕ × Bool) :=
  let nsteps := nsteps0.getD b.length
  let ini := cg_init dyx dxy lr_x lr_y b x0 nsteps
  let x := ini.1
  let r := ini.2.1
  let nsteps := ini.2.2
  let rdotr := dotVec r r
  let residual_tol := tol * dotVec b b
  if rdotr < residual_tol ∨ rdotr < atol then .ok (x, 1, false)
  else
    let st := (List.range nsteps).foldl
      (cg_step dyx dxy lr_x lr_y residual_tol atol)
      { x := x, r := r, p := r, rdotr := rdotr, i := none, done := false }
    match st.i with
    | none => .error .unboundLocal
    | some iv => .ok (st.x, iv + 1, decide (iv > 99))

/-- One operator application of the preconditioned variant, exactly as
coded at general_conjugate_gradient lines 232-242 (and, with v the warm
start, lines 170-181): h_1 = Hvp_vec(grad_x, y_params, lr_x * v).mul_(lr_y);
h_2 = Hvp_vec(grad_y, x_params, h_1).mul_(lr_x); result = v + h_2.
Here lr_x is the already square-rooted learning-rate vector (line 163). -/
def gcg_Avp (dyx dxy : Vec → Vec) (lr_x lr_y : Vec) (v : Vec) : Vec :=
  let h1 := mulVec (dyx (mulVec lr_x v)) lr_y
  let h2 := mulVec (dxy h1) lr_x
  addVec v h2

/-- One iteration of the preconditioned CG loop (lines 231-252).  Unlike
the unscaled variant, p is updated after the convergence test, so a
breaking iteration leaves p unchanged. -/
def gcg_step (dyx dxy : Vec → Vec) (lr_x lr_y : Vec) (residual_tol atol : ℚ)
    (st : CgState) (k : ℕ) : CgState :=
  if st.done then st else
    let Avp := gcg_Avp dyx dxy lr_x lr_y st.p
    let alpha := st.rdotr / dotVec st.p Avp
    let x := addVec st.x (smulVec alpha st.p)
    let r := addVec st.r (smulVec (-alpha) Avp)
    let new_rdotr := dotVec r r
    let beta := new_rdotr / st.rdotr
    let done := decide (new_rdotr < residual_tol) || decide (new_rdotr < atol)
    let p := if done then st.p else addVec r (smulVec beta st.p)
    { x := x, r := r, p := p, rdotr := new_rdotr, i := some k, done := done }

/-- Initialization of the preconditioned solver (lines 164-182), with
lr_x already square-rooted. -/
def gcg_init (dyx dxy : Vec → Vec) (lr_x lr_y : Vec) (b : Vec)
    (x0 : Option Vec) (nsteps : ℕ) : Vec × Vec × ℕ :=
  match x0 with
  | none => (zerosVec b.length, b, nsteps)
  | some xw => (xw, subVec b (gcg_Avp dyx dxy lr_x lr_y xw), nsteps - 1)

/-- The preconditioned solver general_conjugate_gradient (lines 131-296).
lr_x0 is the raw learning-rate vector; line 163 replaces it by its
elementwise square root (modelled by sqrtFn).  The shape check of
lines 184-185 sits after the warm-start branch and before the loop.
The warning threshold here is i > 100 (line 253). -/
def general_conjugate_gradient (dyx dxy : Vec → Vec) (sqrtFn : ℚ → ℚ)
    (grad_x_len : ℕ) (b : Vec) (lr_x0 lr_y : Vec)
    (x0 : Option Vec) (nsteps0 : Option ℕ) (tol atol : ℚ) :
    Except PyError (Vec × ℕ × Bool) :=
  let lr_x := lr_x0.map sqrtFn
  let nsteps := nsteps0.getD b.length
  let ini := gcg_init dyx dxy lr_x lr_y b x0 nsteps
  let x := ini.1
  let r := ini.2.1
  let nsteps := ini.2.2
  if grad_x_len ≠ b.length then
    .error (.runtimeError "CG: hessian vector product shape mismatch")
  else
    let rdotr := dotVec r r
    let residual_tol := tol * dotVec b b
    if rdotr < residual_tol ∨ rdotr < atol then .ok (x, 1, false)
    else
      let st := (List.range nsteps).foldl
        (gcg_step dyx dxy lr_x lr_y residual_tol atol)
        { x := x, r := r, p := r, rdotr := rdotr, i := none, done := false }
      match st.i with
      | none => .error .unboundLocal
      | some iv => .ok (st.x, iv + 1, decide (iv > 100))

/-- The operator of the preconditioned variant as the specification words
it: A(p) = p + sqrt(lr_x) * Hvp(grad_y, x_params, lr_y * Hvp(grad_x,
y_params, sqrt(lr_x) * p)), all scalings elementwise. -/
def generalOperatorSpec (dyx dxy : Vec → Vec) (lr_x lr_y : Vec)
    (sqrtFn : ℚ → ℚ) (p : Vec) : Vec :=
  addVec p
    (mulVec (lr_x.map sqrtFn)
      (dxy (mulVec lr_y (dyx (mulVec (lr_x.map sqrtFn) p)))))

/-!
Oracle layer.  Here tensor elements are `Option ℚ`, with `none` playing
the role of the floating-point NaN: `torch.isnan(t).any()` becomes a scan
for `none`, and NaN-propagating arithmetic sends any operation with a
`none` operand to `none` (matching IEEE NaN propagation, including
0 * NaN = NaN).
-/

abbrev OVal := Option ℚ

abbrev OVec := List OVal

/-- torch.isnan(v).any(). -/
def hasNan (v : OVec) : Bool := v.any fun e => e.isNone

/-- NaN-propagating multiplication. -/
def omul (a b : OVal) : OVal :=
  match a, b with
  | some q, some w => some (q * w)
  | _, _ => none

/-- NaN-propagating addition. -/
def oadd (a b : OVal) : OVal :=
  match a, b with
  | some q, some w => some (q + w)
  | _, _ => none

def addOVec (a b : OVec) : OVec := List.zipWith oadd a b

/-- A parameter tensor, represented by its flattened element count and its
current gradient buffer (.grad), absent when the attribute is None. -/
structure Param where
  size : ℕ
  grad : Option OVec
deriving DecidableEq, Repr

/-- vectorize_grad (src/CGDs/cgd_utils.py lines 6-21): concatenate each
parameter's flattened .grad, substituting zeros_like(p) when .grad is
None, and delete every .grad that was read.  The returned list is the
parameter list after those deletions (Python mutates the parameter
objects in place). -/
def vectorize_grad : List Param → OVec × List Param
  | [] => ([], [])
  | p :: ps =>
    let rest := vectorize_grad ps
    match p.grad with
    | some g => (g ++ rest.1, { p with grad := none } :: rest.2)
    | none => (List.replicate p.size (some (0 : ℚ)) ++ rest.1, p :: rest.2)

/-- zero_grad (lines 299-303): zero every existing gradient buffer in
place; parameters without a buffer are left untouched. -/
def zero_grad (params : List Param) : List Param :=
  params.map fun p =>
    match p.grad with
    | some g => { p with grad := some (List.replicate g.length (some (0 : ℚ))) }
    | none => p

/-- Modelled from the spec: the reverse-mode differentiation engine
(torch.autograd), an external collaborator of this repository (spec
sections 4.2, 6 and 9: a black-box linear-operator oracle).  For the one
computation graph a given Hvp_vec call works on, `vjp c` is the list of
per-parameter contributions obtained by differentiating grad_vec against
the parameter list with upstream cotangent c, `none` marking a parameter
grad_vec does not depend on (allow_unused / unused input).  `trigVjp c`
is the same for the dummy trigger scalar, whose graph participates in the
backward seed grad_vec + 0.0 * trigger: by linearity of reverse-mode
differentiation its contribution enters scaled by the coefficient 0.
`gradVecLen` is the element count of grad_vec; the engine demands that
the cotangent match it and fails with a shape error otherwise (torch
rejects grad_outputs whose shape differs from the differentiated
tensor), which is the precondition failure the spec names. -/
structure Autograd where
  gradVecLen : ℕ
  vjp : OVec → List (Option OVec)
  trigVjp : OVec → List (Option OVec)

/-- The trigger-side contribution to the backward seed, scaled by the
coefficient 0.0 that the source multiplies trigger by.  Elementwise
0 * NaN stays NaN. -/
def trigScale (og : Option OVec) : Option OVec :=
  og.map fun g => g.map (omul (some 0))

/-- Merge the grad_vec-side and trigger-side per-parameter contributions
of one backward pass; a parameter untouched by both gets nothing. -/
def combineOpt : Option OVec → Option OVec → Option OVec
  | none, none => none
  | some g, none => some g
  | none, some h => some h
  | some g, some h => some (addOVec g h)

/-- Per-parameter contributions autograd.backward(grad_vec + 0.0 *
trigger, grad_tensors=vec, inputs=params) computes. -/
def backwardContribs (A : Autograd) (vec : OVec) : List (Option OVec) :=
  List.zipWith combineOpt (A.vjp vec) ((A.trigVjp vec).map trigScale)

/-- autograd.backward accumulates contributions into the .grad buffers:
a fresh buffer where .grad was None, elementwise addition otherwise;
unused parameters are left untouched. -/
def accumulateGrads (params : List Param) (contribs : List (Option OVec)) :
    List Param :=
  List.zipWith
    (fun p c =>
      match c with
      | none => p
      | some g =>
        match p.grad with
        | none => { p with grad := some g }
        | some g0 => { p with grad := some (addOVec g0 g) })
    params contribs

/-- The graph-mode concatenation loop of Hvp_vec (lines 116-125): a None
entry of grad_grad becomes zeros_like(p).view(-1). -/
def flattenGrads (params : List Param) (gg : List (Option OVec)) : OVec :=
  (List.zipWith
    (fun p g =>
      match g with
      | none => List.replicate p.size (some (0 : ℚ))
      | some gv => gv)
    params gg).flatten

/-- The output vector a NaN-free, shape-correct Hvp_vec call computes in
each acquisition mode, before the final NaN check. -/
def hvpComputed (A : Autograd) (params : List Param) (vec : OVec)
    (backward : Bool) : OVec :=
  if backward then
    (vectorize_grad (accumulateGrads (zero_grad params)
      (backwardContribs A vec))).1
  else flattenGrads params (A.vjp vec)

/-- Hvp_vec (src/CGDs/cgd_utils.py lines 83-128).  The result pairs the
Hessian-vector product with the parameter list after the call (mutated by
the backward mode, untouched by the graph mode).  reducerPresent and
rebuild steer the DDP reducer calls of lines 107-110, whose effects are
external to this model (bucket bookkeeping inside the distributed
collaborator); the trigger tensor itself lives inside A.trigVjp. -/
def Hvp_vec (A : Autograd) (grad_vec : OVec) (params : List Param)
    (vec : OVec) (backward : Bool) (reducerPresent : Bool) (rebuild : Bool) :
    Except PyError (OVec × List Param) :=
  if hasNan grad_vec then .error (.valueError "Gradvec nan")
  else if hasNan vec then .error (.valueError "vector nan")
  else if backward then
    let params1 := zero_grad params
    if vec.length ≠ A.gradVecLen then
      .error (.runtimeError "autograd: grad_outputs shape mismatch")
    else
      let params2 := accumulateGrads params1 (backwardContribs A vec)
      let hv := vectorize_grad params2
      if hasNan hv.1 then .error (.valueError "hvp Nan") else .ok hv
  else
    if vec.length ≠ A.gradVecLen then
      .error (.runtimeError "autograd: grad_outputs shape mismatch")
    else
      let hvp := flattenGrads params (A.vjp vec)
      if hasNan hvp then .error (.valueError "hvp Nan") else .ok (hvp, params)

/-!
Heap layer.  To express object identity and in-place mutation (which
tensor buffers a solve writes through), the solvers are restated over an
explicit store: a tensor argument is an address into a heap of value
vectors.  The right-hand side b and the solution x are the only caller
tensors a solve touches; every other tensor the code builds is fresh
(clone(), zeros(), and the arithmetic operators all allocate), so the
residual r and direction p are kept as plain values.  The only writes are
x.data.add_ (and r.data.add_ on the fresh r), matching the source; b is
only ever read, through b.clone() and torch.dot(b, b).  On exception the
heap reached so far is still returned, as Python mutations survive a
raised exception.
-/

abbrev Addr := ℕ

abbrev Heap := List Vec

def readH (h : Heap) (a : Addr) : Vec := (h[a]?).getD []

def writeH (h : Heap) (a : Addr) (v : Vec) : Heap := h.set a v

/-- CG loop state over the store: x is the address of the solution
buffer, mutated in place by x.data.add_. -/
structure HCgState where
  heap : Heap
  x : Addr
  r : Vec
  p : Vec
  rdotr : ℚ
  i : Option ℕ
  done : Bool

/-- One unscaled CG iteration at the store level: identical arithmetic to
cg_step, with x.data.add_(alpha * p) a read-modify-write of the x
buffer. -/
def cg_heap_step (dyx dxy : Vec → Vec) (lr_x lr_y residual_tol atol : ℚ)
    (st : HCgState) (k : ℕ) : HCgState :=
  if st.done then st else
    let Avp := cg_Avp dyx dxy lr_x lr_y st.p
    let alpha := st.rdotr / dotVec st.p Avp
    let heap := writeH st.heap st.x
      (addVec (readH st.heap st.x) (smulVec alpha st.p))
    let r := addVec st.r (smulVec (-alpha) Avp)
    let new_rdotr := dotVec r r
    let beta := new_rdotr / st.rdotr
    let p := addVec r (smulVec beta st.p)
    { heap := heap, x := st.x, r := r, p := p, rdotr := new_rdotr,
      i := some k,
      done := decide (new_rdotr < residual_tol) || decide (new_rdotr < atol) }

/-- One preconditioned CG iteration at the store level (p updated after
the convergence test, as in gcg_step). -/
def gcg_heap_step (dyx dxy : Vec → Vec) (lr_x lr_y : Vec)
    (residual_tol atol : ℚ) (st : HCgState) (k : ℕ) : HCgState :=
  if st.done then st else
    let Avp := gcg_Avp dyx dxy lr_x lr_y st.p
    let alpha := st.rdotr / dotVec st.p Avp
    let heap := writeH st.heap st.x
      (addVec (readH st.heap st.x) (smulVec alpha st.p))
    let r := addVec st.r (smulVec (-alpha) Avp)
    let new_rdotr := dotVec r r
    let beta := new_rdotr / st.rdotr
    let done := decide (new_rdotr < residual_tol) || decide (new_rdotr < atol)
    let p := if done then st.p else addVec r (smulVec beta st.p)
    { heap := heap, x := st.x, r := r, p := p, rdotr := new_rdotr,
      i := some k, done := done }

/-- conjugate_gradient over the store.  Without a warm start, x is a
fresh zero buffer appended to the heap; with a warm start, x stays the
caller's address and the returned solution address is that same
address.  r starts from b.clone(), a value copy. -/
def conjugate_gradient_heap (dyx dxy : Vec → Vec) (grad_x_len : ℕ)
    (h0 : Heap) (b : Addr) (x0 : Option Addr) (nsteps0 : Option ℕ)
    (tol atol lr_x lr_y : ℚ) : Heap × Except PyError (Addr × ℕ) :=
  let bv := readH h0 b
  let nsteps := nsteps0.getD bv.length
  let ini : Heap × Addr × Vec × ℕ :=
    match x0 with
    | none => (h0 ++ [zerosVec bv.length], h0.length, bv, nsteps)
    | some xa =>
      (h0, xa, subVec bv (cg_Avp dyx dxy lr_x lr_y (readH h0 xa)), nsteps - 1)
  let h1 := ini.1
  let xa := ini.2.1
  let r := ini.2.2.1
  let nsteps := ini.2.2.2
  let rdotr := dotVec r r
  let residual_tol := tol * dotVec bv bv
  if rdotr < residual_tol ∨ rdotr < atol then (h1, .ok (xa, 1))
  else
    let st := (List.range nsteps).foldl
      (cg_heap_step dyx dxy lr_x lr_y residual_tol atol)
      { heap := h1, x := xa, r := r, p := r, rdotr := rdotr,
        i := none, done := false }
    match st.i with
    | none => (st.heap, .error .unboundLocal)
    | some iv => (st.heap, .ok (st.x, iv + 1))

/-- general_conjugate_gradient over the store. -/
def general_conjugate_gradient_heap (dyx dxy : Vec → Vec) (sqrtFn : ℚ → ℚ)
    (grad_x_len : ℕ) (h0 : Heap) (b : Addr) (lr_x0 lr_y : Vec)
    (x0 : Option Addr) (nsteps0 : Option ℕ) (tol atol : ℚ) :
    Heap × Except PyError (Addr × ℕ) :=
  let lr_x := lr_x0.map sqrtFn
  let bv := readH h0 b
  let nsteps := nsteps0.getD bv.length
  let ini : Heap × Addr × Vec × ℕ :=
    match x0 with
    | none => (h0 ++ [zerosVec bv.length], h0.length, bv, nsteps)
    | some xa =>
      (h0, xa, subVec bv (gcg_Avp dyx dxy lr_x lr_y (readH h0 xa)), nsteps - 1)
  let h1 := ini.1
  let xa := ini.2.1
  let r := ini.2.2.1
  let nsteps := ini.2.2.2
  if grad_x_len ≠ bv.length then
    (h1, .error (.runtimeError "CG: hessian vector product shape mismatch"))
  else
    let rdotr := dotVec r r
    let residual_tol := tol * dotVec bv bv
    if rdotr < residual_tol ∨ rdotr < atol then (h1, .ok (xa, 1))
    else
      let st := (List.range nsteps).foldl
        (gcg_heap_step dyx dxy lr_x lr_y residual_tol atol)
        { heap := h1, x := xa, r := r, p := r, rdotr := rdotr,
          i := none, done := false }
      match st.i with
      | none => (st.heap, .error .unboundLocal)
      | some iv => (st.heap, .ok (st.x, iv + 1))

/-!
Helper lemmas.
-/

theorem mulVec_comm (a b : Vec) : mulVec a b = mulVec b a :=
  List.zipWith_comm_of_comm (· * ·) mul_comm a b

theorem mulVec_replicate_one_left (n : ℕ) (v : Vec) (h : v.length ≤ n) :
    mulVec (List.replicate n 1) v = v := by
  induction v generalizing n with
  | nil => simp [mulVec]
  | cons a as ih =>
    cases n with
    | zero => simp at h
    | succ k =>
      simp only [List.replicate, mulVec, List.zipWith, one_mul]
      exact congrArg (a :: ·) (ih k (by simpa using h))

theorem mulVec_replicate_one_right (n : ℕ) (v : Vec) (h : v.length ≤ n) :
    mulVec v (List.replicate n 1) = v := by
  rw [mulVec_comm]; exact mulVec_replicate_one_left n v h

theorem dotVec_self_sub (b : Vec) : dotVec (subVec b b) (subVec b b) = 0 := by
  induction b with
  | nil => rfl
  | cons q qs ih =>
    simp only [subVec, List.zipWith, dotVec, mulVec, List.sum_cons] at *
    simp [ih]

/-- C1: in general_conjugate_gradient, every operator application to a
vector p (the warm-start application of lines 170-181 and the loop
application of lines 232-242, both instances of gcg_Avp applied to the
square-rooted learning-rate vector of line 163) computes
p + sqrt(lr_x) * Hvp(grad_y, x_params, lr_y * Hvp(grad_x, y_params,
sqrt(lr_x) * p)): the probe is pre-scaled elementwise by sqrt(lr_x)
before the first Hvp, the intermediate result is scaled elementwise by
lr_y, the second Hvp result is scaled by sqrt(lr_x) again, and the
identity contribution p is added. -/
theorem gcg_Avp_eq_spec_operator (dyx dxy : Vec → Vec) (lr_x0 lr_y : Vec)
    (sqrtFn : ℚ → ℚ) (p : Vec) :
    gcg_Avp dyx dxy (lr_x0.map sqrtFn) lr_y p
      = generalOperatorSpec dyx dxy lr_x0 lr_y sqrtFn p := by
  simp only [gcg_Avp, generalOperatorSpec]
  rw [mulVec_comm (dyx _) lr_y, mulVec_comm (dxy _) (lr_x0.map sqrtFn)]

/-- C2 counterexample: the unscaled variant conjugate_gradient performs
no grad_x / b shape check at all.  Here grad_x has 2 elements and b has
1, yet the solve returns successfully (b = 0 converges immediately),
contradicting the claim that every solver call with mismatched shapes
fails with the fatal shape-mismatch configuration error. -/
theorem conjugate_gradient_no_shape_check :
    (2 ≠ List.length [(0 : ℚ)]) ∧
      conjugate_gradient (fun v => v) (fun v => v) 2 [(0 : ℚ)] none none
        (1 / 10 ^ 10) (1 / 10 ^ 16) 1 1 = .ok ([(0 : ℚ)], 1, false) :=
  ⟨by decide, by
    norm_num [conjugate_gradient, cg_init, addVec, subVec, mulVec, dotVec,
      zerosVec]⟩

/-- C2 (amended): only the preconditioned variant
general_conjugate_gradient checks the shapes of grad_x and b; when they
differ and no warm start is supplied, it fails with the fatal
shape-mismatch configuration error before the CG loop (with a warm
start the warm-start operator application precedes the check), while
the unscaled variant conjugate_gradient performs no such check and can
return successfully. -/
theorem general_cg_shape_mismatch_error (dyx dxy : Vec → Vec)
    (sqrtFn : ℚ → ℚ) (gxlen : ℕ) (b : Vec) (lr_x0 lr_y : Vec)
    (nsteps0 : Option ℕ) (tol atol : ℚ) (hne : gxlen ≠ b.length) :
    general_conjugate_gradient dyx dxy sqrtFn gxlen b lr_x0 lr_y none
        nsteps0 tol atol
      = .error (.runtimeError "CG: hessian vector product shape mismatch") := by
  simp [general_conjugate_gradient, hne]

/-- Witness for the amended C2 theorem at a concrete input. -/
theorem general_cg_shape_mismatch_error_witness :
    general_conjugate_gradient (fun v => v) (fun v => v) (fun q => q) 2
        [(0 : ℚ)] [(1 : ℚ)] [(1 : ℚ)] none none (1 / 10 ^ 10) (1 / 10 ^ 16)
      = .error (.runtimeError "CG: hessian vector product shape mismatch") :=
  general_cg_shape_mismatch_error (fun v => v) (fun v => v) (fun q => q) 2
    [(0 : ℚ)] [(1 : ℚ)] [(1 : ℚ)] none (1 / 10 ^ 10) (1 / 10 ^ 16) (by decide)

/-- C3 is a code bug: when a warm start is supplied together with
nsteps = 1 and the warm-start residual has not converged, the remaining
iteration budget is zero, the Python loop `for i in range(0)` never binds
its loop variable, and the subsequent `if i > 99` raises
UnboundLocalError instead of returning (x, 1).  Evaluated here at the
concrete failing input b = [1], warm start x = [1], nsteps = 1, identity
Hvp oracles, default tolerances. -/
theorem cg_warmstart_budget_unbound_error :
    conjugate_gradient (fun v => v) (fun v => v) 1 [(1 : ℚ)]
        (some [(1 : ℚ)]) (some 1) (1 / 10 ^ 10) (1 / 10 ^ 16) 1 1
      = .error .unboundLocal := by
  norm_num [conjugate_gradient, cg_init, cg_Avp, addVec, subVec, mulVec,
    dotVec, zerosVec]

/-- C8: vectorize_grad returns the concatenation, in parameter order, of
each parameter's flattened gradient buffer, substituting a zero vector
of the parameter's shape when the buffer is absent; every inspected
buffer is removed, so an immediately repeated call on the resulting
parameters returns the all-zero vector. -/
theorem vectorize_grad_contract (params : List Param) :
    (vectorize_grad params).1
        = (params.map fun p =>
            p.grad.getD (List.replicate p.size (some (0 : ℚ)))).flatten
      ∧ (∀ q ∈ (vectorize_grad params).2, q.grad = none)
      ∧ (vectorize_grad (vectorize_grad params).2).1
        = (params.map fun p => List.replicate p.size (some (0 : ℚ))).flatten := by
  induction params with
  | nil => exact ⟨rfl, by simp [vectorize_grad], rfl⟩
  | cons p ps ih =>
    obtain ⟨ih1, ih2, ih3⟩ := ih
    cases hg : p.grad with
    | none =>
      refine ⟨?_, ?_, ?_⟩
      · simp [vectorize_grad, hg, ih1]
      · intro q hq
        simp only [vectorize_grad, hg] at hq
        rcases List.mem_cons.mp hq with h | h
        · rw [h]; exact hg
        · exact ih2 q h
      · simp [vectorize_grad, hg, ih3]
    | some g =>
      refine ⟨?_, ?_, ?_⟩
      · simp [vectorize_grad, hg, ih1]
      · intro q hq
        simp only [vectorize_grad, hg] at hq
        rcases List.mem_cons.mp hq with h | h
        · rw [h]
        · exact ih2 q h
      · simp [vectorize_grad, hg, ih3]

/-- C4: every Hvp_vec call checks its inputs and output for NaN.  A NaN
in grad_vec fails with the distinct non-finite-input error "Gradvec nan"
and a NaN in vec with "vector nan", in both cases before any
differentiation is attempted (the conclusion holds for every engine A,
so the result does not depend on the differentiation at all); and when
both inputs are NaN-free but the computed output vector contains a NaN,
the call fails with the distinct non-finite-result error "hvp Nan"
instead of returning the corrupted vector. -/
theorem Hvp_vec_nan_checks (A : Autograd) (grad_vec : OVec)
    (params : List Param) (vec : OVec) (bw rp rb : Bool) :
    (hasNan grad_vec = true →
      Hvp_vec A grad_vec params vec bw rp rb
        = .error (.valueError "Gradvec nan"))
    ∧ (hasNan grad_vec = false → hasNan vec = true →
      Hvp_vec A grad_vec params vec bw rp rb
        = .error (.valueError "vector nan"))
    ∧ (hasNan grad_vec = false → hasNan vec = false →
      vec.length = A.gradVecLen →
      hasNan (hvpComputed A params vec bw) = true →
      Hvp_vec A grad_vec params vec bw rp rb
        = .error (.valueError "hvp Nan")) := by
  refine ⟨fun h1 => ?_, fun h1 h2 => ?_, fun h1 h2 h3 h4 => ?_⟩
  · simp [Hvp_vec, h1]
  · simp [Hvp_vec, h1, h2]
  · cases bw <;> simp_all [Hvp_vec, hvpComputed]

/-- Witness for C4 at a concrete input: a NaN element in grad_vec. -/
theorem Hvp_vec_nan_checks_witness :
    Hvp_vec ⟨0, fun _ => [], fun _ => []⟩ [none] [] [] false false false
      = .error (.valueError "Gradvec nan") :=
  (Hvp_vec_nan_checks ⟨0, fun _ => [], fun _ => []⟩ [none] [] [] false false
    false).1 rfl

/-- C9: when the flattened length of the probe vector vec differs from
the length the differentiation call requires (the element count of
grad_vec, which the engine record carries as gradVecLen), the Hvp_vec
call fails with the shape/precondition error raised by the
differentiation engine and never returns a (truncated or padded)
result.  Stated for NaN-free inputs, since the NaN checks run first. -/
theorem Hvp_vec_probe_length_mismatch (A : Autograd) (grad_vec : OVec)
    (params : List Param) (vec : OVec) (bw rp rb : Bool)
    (h1 : hasNan grad_vec = false) (h2 : hasNan vec = false)
    (hg : grad_vec.length = A.gradVecLen)
    (hne : vec.length ≠ grad_vec.length) :
    Hvp_vec A grad_vec params vec bw rp rb
      = .error (.runtimeError "autograd: grad_outputs shape mismatch") := by
  rw [hg] at hne
  cases bw <;> simp [Hvp_vec, h1, h2, hne]

/-- Witness for C9 at a concrete input: grad_vec of length 1, probe of
length 2. -/
theorem Hvp_vec_probe_length_mismatch_witness :
    Hvp_vec ⟨1, fun _ => [], fun _ => []⟩ [some 0] [] [some 0, some 0]
        false false false
      = .error (.runtimeError "autograd: grad_outputs shape mismatch") :=
  Hvp_vec_probe_length_mismatch ⟨1, fun _ => [], fun _ => []⟩ [some 0] []
    [some 0, some 0] false false false rfl rfl rfl (by decide)

/-- C5: in both solver variants, whenever the residual computed by the
initialization (r = b for a fresh zero x, r = b - A(x0) after the
warm-start operator application) satisfies r.r < tol * (b.b) or
r.r < atol, the solve returns (x, 1) without entering the CG loop; in
particular (third and fourth conjuncts) warm-starting with an exact
solution of the variant's operator equation terminates with iteration
count 1 as soon as atol is positive. -/
theorem cg_early_exit_step_count_one :
    (∀ (dyx dxy : Vec → Vec) (gxlen : ℕ) (b : Vec) (x0 : Option Vec)
        (nsteps0 : Option ℕ) (tol atol lr_x lr_y : ℚ),
      (dotVec (cg_init dyx dxy lr_x lr_y b x0 (nsteps0.getD b.length)).2.1
            (cg_init dyx dxy lr_x lr_y b x0 (nsteps0.getD b.length)).2.1
          < tol * dotVec b b
        ∨ dotVec (cg_init dyx dxy lr_x lr_y b x0 (nsteps0.getD b.length)).2.1
            (cg_init dyx dxy lr_x lr_y b x0 (nsteps0.getD b.length)).2.1
          < atol) →
      conjugate_gradient dyx dxy gxlen b x0 nsteps0 tol atol lr_x lr_y
        = .ok ((cg_init dyx dxy lr_x lr_y b x0 (nsteps0.getD b.length)).1,
            1, false))
    ∧ (∀ (dyx dxy : Vec → Vec) (sqrtFn : ℚ → ℚ) (b : Vec) (lr_x0 lr_y : Vec)
        (x0 : Option Vec) (nsteps0 : Option ℕ) (tol atol : ℚ),
      (dotVec
            (gcg_init dyx dxy (lr_x0.map sqrtFn) lr_y b x0
              (nsteps0.getD b.length)).2.1
            (gcg_init dyx dxy (lr_x0.map sqrtFn) lr_y b x0
              (nsteps0.getD b.length)).2.1
          < tol * dotVec b b
        ∨ dotVec
            (gcg_init dyx dxy (lr_x0.map sqrtFn) lr_y b x0
              (nsteps0.getD b.length)).2.1
            (gcg_init dyx dxy (lr_x0.map sqrtFn) lr_y b x0
              (nsteps0.getD b.length)).2.1
          < atol) →
      general_conjugate_gradient dyx dxy sqrtFn b.length b lr_x0 lr_y x0
          nsteps0 tol atol
        = .ok ((gcg_init dyx dxy (lr_x0.map sqrtFn) lr_y b x0
            (nsteps0.getD b.length)).1, 1, false))
    ∧ (∀ (dyx dxy : Vec → Vec) (gxlen : ℕ) (b : Vec) (xw : Vec)
        (nsteps0 : Option ℕ) (tol atol lr_x lr_y : ℚ),
      cg_Avp dyx dxy lr_x lr_y xw = b → 0 < atol →
      conjugate_gradient dyx dxy gxlen b (some xw) nsteps0 tol atol lr_x lr_y
        = .ok (xw, 1, false))
    ∧ (∀ (dyx dxy : Vec → Vec) (sqrtFn : ℚ → ℚ) (b : Vec) (lr_x0 lr_y : Vec)
        (xw : Vec) (nsteps0 : Option ℕ) (tol atol : ℚ),
      gcg_Avp dyx dxy (lr_x0.map sqrtFn) lr_y xw = b → 0 < atol →
      general_conjugate_gradient dyx dxy sqrtFn b.length b lr_x0 lr_y
          (some xw) nsteps0 tol atol
        = .ok (xw, 1, false)) := by
  refine ⟨fun dyx dxy gxlen b x0 nsteps0 tol atol lr_x lr_y h => ?_,
    fun dyx dxy sqrtFn b lr_x0 lr_y x0 nsteps0 tol atol h => ?_,
    fun dyx dxy gxlen b xw nsteps0 tol atol lr_x lr_y hA hatol => ?_,
    fun dyx dxy sqrtFn b lr_x0 lr_y xw nsteps0 tol atol hA hatol => ?_⟩
  · simp only [conjugate_gradient]
    rw [if_pos h]
  · simp only [general_conjugate_gradient, ne_eq, not_true_eq_false,
      ite_false, if_neg (by simp : ¬ b.length ≠ b.length)]
    rw [if_pos h]
  · simp only [conjugate_gradient, cg_init]
    rw [hA, if_pos (Or.inr (by rw [dotVec_self_sub]; exact hatol))]
  · simp only [general_conjugate_gradient, gcg_init,
      if_neg (by simp : ¬ b.length ≠ b.length)]
    rw [hA, if_pos (Or.inr (by rw [dotVec_self_sub]; exact hatol))]

/-- Witness for C5: warm-starting the unscaled solver with the exact
solution x = [1/2] of (I + 1)x = [1] (identity Hvp oracles) returns
([1/2], 1) immediately. -/
theorem cg_early_exit_step_count_one_witness :
    conjugate_gradient (fun v => v) (fun v => v) 1 [(1 : ℚ)]
        (some [(1 / 2 : ℚ)]) none (1 / 10 ^ 10) (1 / 10 ^ 16) 1 1
      = .ok ([(1 / 2 : ℚ)], 1, false) :=
  cg_early_exit_step_count_one.2.2.1 (fun v => v) (fun v => v) 1 [(1 : ℚ)]
    [(1 / 2 : ℚ)] none (1 / 10 ^ 10) (1 / 10 ^ 16) 1 1
    (by norm_num [cg_Avp, addVec, mulVec]) (by norm_num)

theorem addOVec_zeros_left (g : OVec) :
    addOVec (List.replicate g.length (some 0)) g = g := by
  induction g with
  | nil => rfl
  | cons a as ih =>
    cases a with
    | none => simp [addOVec, oadd, List.replicate, List.zipWith] at *; exact ih
    | some q =>
      simp only [List.length_cons, List.replicate, addOVec, List.zipWith,
        oadd, zero_add] at *
      exact congrArg (some q :: ·) ih

theorem addOVec_zeros_right (g : OVec) :
    addOVec g (List.replicate g.length (some 0)) = g := by
  induction g with
  | nil => rfl
  | cons a as ih =>
    cases a with
    | none => simp [addOVec, oadd, List.replicate, List.zipWith] at *; exact ih
    | some q =>
      simp only [List.length_cons, List.replicate, addOVec, List.zipWith,
        oadd, add_zero] at *
      exact congrArg (some q :: ·) ih

theorem map_omul_zero_of_nanfree (h : OVec) (hn : hasNan h = false) :
    h.map (omul (some 0)) = List.replicate h.length (some 0) := by
  induction h with
  | nil => rfl
  | cons a as ih =>
    cases a with
    | none => simp [hasNan] at hn
    | some q =>
      simp only [hasNan, List.any_cons, Option.isNone_some, Bool.false_or]
        at hn
      simp only [List.map_cons, omul, zero_mul, List.length_cons,
        List.replicate]
      exact congrArg (some 0 :: ·) (ih hn)

theorem addOVec_replicate_zero_left (n : ℕ) (g : OVec) (h : g.length = n) :
    addOVec (List.replicate n (some 0)) g = g := by
  subst h; exact addOVec_zeros_left g

theorem addOVec_replicate_zero_right (n : ℕ) (g : OVec) (h : g.length = n) :
    addOVec g (List.replicate n (some 0)) = g := by
  subst h; exact addOVec_zeros_right g

theorem vectorize_grad_cons_fst (q : Param) (Q : List Param) :
    (vectorize_grad (q :: Q)).1
      = (match q.grad with
          | some g => g
          | none => List.replicate q.size (some (0 : ℚ)))
        ++ (vectorize_grad Q).1 := by
  cases hq : q.grad <;> simp [vectorize_grad, hq]

theorem flattenGrads_cons (p : Param) (ps : List Param) (c : Option OVec)
    (cs : List (Option OVec)) :
    flattenGrads (p :: ps) (c :: cs)
      = (match c with
          | none => List.replicate p.size (some (0 : ℚ))
          | some g => g)
        ++ flattenGrads ps cs := by
  cases c <;> simp [flattenGrads]

/-- The value accumulated into the gradient buffers by one backward pass
over NaN-clean, well-shaped engine output coincides with the graph-mode
concatenation: core of the two acquisition modes agreeing. -/
theorem backward_graph_core (params : List Param) :
    ∀ (cs ts : List (Option OVec)),
    (∀ p ∈ params, ∀ g, p.grad = some g → g.length = p.size) →
    List.Forall₂ (fun (p : Param) og => ∀ g, og = some g → g.length = p.size)
      params cs →
    List.Forall₂ (fun (p : Param) og => ∀ g, og = some g →
      g.length = p.size ∧ hasNan g = false) params ts →
    (vectorize_grad (accumulateGrads (zero_grad params)
        (List.zipWith combineOpt cs (ts.map trigScale)))).1
      = flattenGrads params cs := by
  induction params with
  | nil => intro cs ts _ h1 h2; cases h1; cases h2; rfl
  | cons p ps ih =>
    intro cs ts hw h1 h2
    cases h1 with
    | cons hpc h1t =>
      rename_i c cs'
      cases h2 with
      | cons hpt h2t =>
        rename_i t ts'
        have hwp := hw p (List.mem_cons_self p ps)
        have tail := ih cs' ts'
          (fun q hq => hw q (List.mem_cons_of_mem p hq)) h1t h2t
        have hzg : zero_grad (p :: ps)
            = (match p.grad with
                | some g =>
                  { p with grad := some (List.replicate g.length (some 0)) }
                | none => p) :: zero_grad ps := rfl
        rw [hzg, List.map_cons, List.zipWith_cons_cons]
        have hacc : ∀ (q : Param) (Q : List Param) (d : Option OVec)
            (D : List (Option OVec)),
            accumulateGrads (q :: Q) (d :: D)
              = (match d with
                  | none => q
                  | some g =>
                    match q.grad with
                    | none => { q with grad := some g }
                    | some g0 => { q with grad := some (addOVec g0 g) })
                :: accumulateGrads Q D := fun _ _ _ _ => rfl
        rw [hacc, vectorize_grad_cons_fst, flattenGrads_cons, tail]
        have happ : ∀ u v : OVec, u = v →
            u ++ flattenGrads ps cs' = v ++ flattenGrads ps cs' :=
          fun u v h => by rw [h]
        apply happ
        cases hpg : p.grad with
        | none =>
          cases c with
          | none =>
            cases t with
            | none => simp [hpg, trigScale, combineOpt]
            | some h =>
              obtain ⟨hlen, hnan⟩ := hpt h rfl
              simp [hpg, trigScale, combineOpt,
                map_omul_zero_of_nanfree h hnan, hlen]
          | some g =>
            have hglen := hpc g rfl
            cases t with
            | none => simp [hpg, trigScale, combineOpt]
            | some h =>
              obtain ⟨hlen, hnan⟩ := hpt h rfl
              simp [hpg, trigScale, combineOpt,
                map_omul_zero_of_nanfree h hnan, hlen,
                addOVec_replicate_zero_right p.size g hglen]
        | some g0 =>
          have hg0 := hwp g0 hpg
          cases c with
          | none =>
            cases t with
            | none => simp [hpg, trigScale, combineOpt, hg0]
            | some h =>
              obtain ⟨hlen, hnan⟩ := hpt h rfl
              simp [hpg, trigScale, combineOpt,
                map_omul_zero_of_nanfree h hnan, hlen, hg0,
                addOVec_replicate_zero_left p.size
                  (List.replicate p.size (some 0)) (by simp)]
          | some g =>
            have hglen := hpc g rfl
            cases t with
            | none =>
              simp [hpg, trigScale, combineOpt, hg0,
                addOVec_replicate_zero_left p.size g hglen]
            | some h =>
              obtain ⟨hlen, hnan⟩ := hpt h rfl
              simp [hpg, trigScale, combineOpt,
                map_omul_zero_of_nanfree h hnan, hlen, hg0,
                addOVec_replicate_zero_right p.size g hglen,
                addOVec_replicate_zero_left p.size g hglen]

/-- C7: for every grad_vec, params and vec, with no distributed reducer
present (reducerPresent = false, i.e. reducer = None), the
accumulation-mode call of Hvp_vec (backward = True) functions without
the reducer and its returned output vector equals the graph-mode call
(backward = False) on the same inputs: the two acquisition modes give
identical results (the whole call outcome agrees, so whenever graph
mode succeeds the accumulation mode succeeds with the same vector).
The hypotheses say the engine output is well-shaped (each per-parameter
contribution has that parameter's size, as reverse-mode differentiation
guarantees) and that the zero-scaled trigger contributions are NaN-free. -/
theorem Hvp_vec_backward_eq_graph (A : Autograd) (grad_vec : OVec)
    (params : List Param) (vec : OVec) (rb : Bool)
    (hw : ∀ p ∈ params, ∀ g, p.grad = some g → g.length = p.size)
    (h1 : List.Forall₂
      (fun (p : Param) og => ∀ g, og = some g → g.length = p.size)
      params (A.vjp vec))
    (h2 : List.Forall₂
      (fun (p : Param) og => ∀ g, og = some g →
        g.length = p.size ∧ hasNan g = false)
      params (A.trigVjp vec)) :
    (Hvp_vec A grad_vec params vec true false rb).map Prod.fst
      = (Hvp_vec A grad_vec params vec false false rb).map Prod.fst := by
  have hcore := backward_graph_core params (A.vjp vec) (A.trigVjp vec)
    hw h1 h2
  cases hg : hasNan grad_vec with
  | true => simp [Hvp_vec, hg]
  | false =>
    cases hv : hasNan vec with
    | true => simp [Hvp_vec, hg, hv]
    | false =>
      by_cases hlen : vec.length = A.gradVecLen
      · cases hnan : hasNan (flattenGrads params (A.vjp vec)) with
        | true => simp [Hvp_vec, hg, hv, hlen, backwardContribs, hcore, hnan]
        | false =>
          simp [Hvp_vec, hg, hv, hlen, backwardContribs, hcore, hnan,
            Except.map]
      · simp [Hvp_vec, hg, hv, hlen]

/-- Witness for C7 at a concrete input: one parameter of size 1 with no
stored gradient, engine contribution [2], no trigger dependency. -/
theorem Hvp_vec_backward_eq_graph_witness :
    (Hvp_vec ⟨1, fun _ => [some [some (2 : ℚ)]], fun _ => [none]⟩
        [some 0] [⟨1, none⟩] [some 1] true false false).map Prod.fst
      = (Hvp_vec ⟨1, fun _ => [some [some (2 : ℚ)]], fun _ => [none]⟩
        [some 0] [⟨1, none⟩] [some 1] false false false).map Prod.fst :=
  Hvp_vec_backward_eq_graph ⟨1, fun _ => [some [some (2 : ℚ)]],
      fun _ => [none]⟩ [some 0] [⟨1, none⟩] [some 1] false
    (by intro p hp g hg
        simp only [List.mem_singleton] at hp
        subst hp
        simp at hg)
    (by refine List.Forall₂.cons ?_ List.Forall₂.nil
        intro g hg
        injection hg with h
        subst h
        rfl)
    (by refine List.Forall₂.cons ?_ List.Forall₂.nil
        intro g hg
        cases hg)

theorem map_mul_one (v : Vec) : v.map (· * 1) = v := by simp

/-- Correspondence between an unscaled-loop state and a preconditioned-loop
state when all learning rates are 1: all fields agree except that the
search direction p is only tracked while the loop is still running (the
two variants update p on opposite sides of the break test, so p may
differ after the breaking iteration, when it is never read again); the
bound on p keeps the all-ones elementwise scalings the identity. -/
def CgRel (n : ℕ) (st1 st2 : CgState) : Prop :=
  st1.x = st2.x ∧ st1.r = st2.r ∧ st1.rdotr = st2.rdotr ∧ st1.i = st2.i
    ∧ st1.done = st2.done
    ∧ (st1.done = false → st1.p = st2.p ∧ st1.p.length ≤ n)

theorem foldl_rel {α β : Type} (R : α → β → Prop)
    (f : α → ℕ → α) (g : β → ℕ → β)
    (hstep : ∀ a b k, R a b → R (f a k) (g b k)) :
    ∀ (l : List ℕ) (a : α) (b : β), R a b → R (l.foldl f a) (l.foldl g b) := by
  intro l
  induction l with
  | nil => intro a b h; exact h
  | cons k l ih => intro a b h; exact ih _ _ (hstep a b k h)

theorem gcg_Avp_ones (dyx dxy : Vec → Vec) (n m : ℕ)
    (Hdyx : ∀ v, (dyx v).length = m) (Hdxy : ∀ v, (dxy v).length = n)
    (v : Vec) (hv : v.length ≤ n) :
    gcg_Avp dyx dxy (List.replicate n 1) (List.replicate m 1) v
      = cg_Avp dyx dxy 1 1 v := by
  simp only [gcg_Avp, cg_Avp, map_mul_one,
    mulVec_replicate_one_left n v hv,
    mulVec_replicate_one_right m (dyx v) (le_of_eq (Hdyx v)),
    mulVec_replicate_one_right n (dxy (dyx v)) (le_of_eq (Hdxy (dyx v)))]

theorem cg_gcg_step_rel (dyx dxy : Vec → Vec) (n m : ℕ)
    (Hdyx : ∀ v, (dyx v).length = m) (Hdxy : ∀ v, (dxy v).length = n)
    (rt atl : ℚ) (st1 st2 : CgState) (k : ℕ) (h : CgRel n st1 st2) :
    CgRel n (cg_step dyx dxy 1 1 rt atl st1 k)
      (gcg_step dyx dxy (List.replicate n 1) (List.replicate m 1) rt atl
        st2 k) := by
  obtain ⟨hx, hr, hrd, hi, hd, hp⟩ := h
  cases hdone : st1.done with
  | true =>
    have hd2 : st2.done = true := by rw [← hd, hdone]
    simp only [cg_step, gcg_step, hdone, hd2, if_true]
    exact ⟨hx, hr, hrd, hi, hd, fun hf => absurd (hdone ▸ hf) (by simp)⟩
  | false =>
    have hd2 : st2.done = false := by rw [← hd, hdone]
    obtain ⟨hpp, hplen⟩ := hp hdone
    have hAvp : gcg_Avp dyx dxy (List.replicate n 1) (List.replicate m 1)
        st1.p = cg_Avp dyx dxy 1 1 st1.p :=
      gcg_Avp_ones dyx dxy n m Hdyx Hdxy st1.p hplen
    simp only [cg_step, gcg_step, hdone, hd2, Bool.false_eq_true,
      if_false, hAvp, ← hpp, ← hx, ← hr, ← hrd]
    refine ⟨?_, ?_, ?_, ?_, ?_, fun hf => ?_⟩
    · rfl
    · rfl
    · rfl
    · rfl
    · rfl
    · simp only at hf
      simp only [hf, Bool.false_eq_true, if_false]
      refine ⟨by trivial, ?_⟩
      simp only [addVec, smulVec, List.length_zipWith, List.length_map]
      exact le_trans (min_le_right _ _) hplen

/-- C6: on a common input (same Hvp oracles, b, warm start, nsteps, tol,
atol), the unscaled solver with scalar learning rates lr_x = lr_y = 1
and the preconditioned solver with all-ones learning-rate vectors return
the same solution vector and the same iteration count (the projection
discards only the warning flag, whose thresholds differ: 99 vs 100).
Hypotheses: the oracles have fixed output sizes (dyx into the y-space of
size m, dxy into the x-space of size len b), sqrt fixes 1, grad_x has
the length of b (the preconditioned variant checks it), and any warm
start lives in the x-space. -/
theorem cg_agrees_with_general_unit_lr (dyx dxy : Vec → Vec)
    (sqrtFn : ℚ → ℚ) (m gxlen : ℕ) (b : Vec) (x0 : Option Vec)
    (nsteps0 : Option ℕ) (tol atol : ℚ)
    (Hdyx : ∀ v, (dyx v).length = m)
    (Hdxy : ∀ v, (dxy v).length = b.length)
    (hs : sqrtFn 1 = 1)
    (hlen : gxlen = b.length)
    (hx0 : ∀ xw, x0 = some xw → xw.length = b.length) :
    (conjugate_gradient dyx dxy gxlen b x0 nsteps0 tol atol 1 1).map
        (fun t => (t.1, t.2.1))
      = (general_conjugate_gradient dyx dxy sqrtFn gxlen b
          (List.replicate b.length 1) (List.replicate m 1) x0 nsteps0 tol
          atol).map (fun t => (t.1, t.2.1)) := by
  subst hlen
  have hsqrt : (List.replicate b.length (1 : ℚ)).map sqrtFn
      = List.replicate b.length 1 := by
    rw [List.map_replicate, hs]
  have hinig : gcg_init dyx dxy (List.replicate b.length 1)
      (List.replicate m 1) b x0 (nsteps0.getD b.length)
      = cg_init dyx dxy 1 1 b x0 (nsteps0.getD b.length) := by
    cases hx : x0 with
    | none => rfl
    | some xw =>
      have hxw := hx0 xw hx
      simp only [gcg_init, cg_init]
      rw [gcg_Avp_ones dyx dxy b.length m Hdyx Hdxy xw (le_of_eq hxw)]
  have hrlen : (cg_init dyx dxy 1 1 b x0 (nsteps0.getD b.length)).2.1.length
      ≤ b.length := by
    cases hx : x0 with
    | none => simp [cg_init]
    | some xw =>
      simp only [cg_init, subVec, List.length_zipWith]
      exact min_le_left _ _
  simp only [conjugate_gradient, general_conjugate_gradient, hsqrt, hinig,
    ne_eq, not_true_eq_false, Bool.false_eq_true, if_false, ite_false]
  by_cases hC :
      dotVec (cg_init dyx dxy 1 1 b x0 (nsteps0.getD b.length)).2.1
          (cg_init dyx dxy 1 1 b x0 (nsteps0.getD b.length)).2.1
        < tol * dotVec b b
      ∨ dotVec (cg_init dyx dxy 1 1 b x0 (nsteps0.getD b.length)).2.1
          (cg_init dyx dxy 1 1 b x0 (nsteps0.getD b.length)).2.1
        < atol
  · rw [if_pos hC, if_pos hC]
  · rw [if_neg hC, if_neg hC]
    have hrel := foldl_rel (CgRel b.length)
      (cg_step dyx dxy 1 1 (tol * dotVec b b) atol)
      (gcg_step dyx dxy (List.replicate b.length 1) (List.replicate m 1)
        (tol * dotVec b b) atol)
      (fun a c k h =>
        cg_gcg_step_rel dyx dxy b.length m Hdyx Hdxy (tol * dotVec b b)
          atol a c k h)
      (List.range (cg_init dyx dxy 1 1 b x0 (nsteps0.getD b.length)).2.2)
      { x := (cg_init dyx dxy 1 1 b x0 (nsteps0.getD b.length)).1,
        r := (cg_init dyx dxy 1 1 b x0 (nsteps0.getD b.length)).2.1,
        p := (cg_init dyx dxy 1 1 b x0 (nsteps0.getD b.length)).2.1,
        rdotr := dotVec
          (cg_init dyx dxy 1 1 b x0 (nsteps0.getD b.length)).2.1
          (cg_init dyx dxy 1 1 b x0 (nsteps0.getD b.length)).2.1,
        i := none, done := false }
      { x := (cg_init dyx dxy 1 1 b x0 (nsteps0.getD b.length)).1,
        r := (cg_init dyx dxy 1 1 b x0 (nsteps0.getD b.length)).2.1,
        p := (cg_init dyx dxy 1 1 b x0 (nsteps0.getD b.length)).2.1,
        rdotr := dotVec
          (cg_init dyx dxy 1 1 b x0 (nsteps0.getD b.length)).2.1
          (cg_init dyx dxy 1 1 b x0 (nsteps0.getD b.length)).2.1,
        i := none, done := false }
      ⟨rfl, rfl, rfl, rfl, rfl, fun _ => ⟨rfl, hrlen⟩⟩
    obtain ⟨hfx, hfr, hfrd, hfi, hfd, hfp⟩ := hrel
    rw [← hfi]
    cases hiv : ((List.range
        (cg_init dyx dxy 1 1 b x0 (nsteps0.getD b.length)).2.2).foldl
        (cg_step dyx dxy 1 1 (tol * dotVec b b) atol)
        { x := (cg_init dyx dxy 1 1 b x0 (nsteps0.getD b.length)).1,
          r := (cg_init dyx dxy 1 1 b x0 (nsteps0.getD b.length)).2.1,
          p := (cg_init dyx dxy 1 1 b x0 (nsteps0.getD b.length)).2.1,
          rdotr := dotVec
            (cg_init dyx dxy 1 1 b x0 (nsteps0.getD b.length)).2.1
            (cg_init dyx dxy 1 1 b x0 (nsteps0.getD b.length)).2.1,
          i := none, done := false }).i with
    | none => rfl
    | some iv => simp [Except.map, hfx]

/-- Witness for C6 at a concrete input: scalar players summed by the
oracles, b = [1], no warm start, identity sqrt. -/
theorem cg_agrees_with_general_unit_lr_witness :
    (conjugate_gradient (fun v => [v.sum]) (fun v => [v.sum]) 1 [(1 : ℚ)]
        none none (1 / 10 ^ 10) (1 / 10 ^ 16) 1 1).map
        (fun t => (t.1, t.2.1))
      = (general_conjugate_gradient (fun v => [v.sum]) (fun v => [v.sum])
          (fun q => q) 1 [(1 : ℚ)] (List.replicate 1 1)
          (List.replicate 1 1) none none (1 / 10 ^ 10)
          (1 / 10 ^ 16)).map (fun t => (t.1, t.2.1)) :=
  cg_agrees_with_general_unit_lr (fun v => [v.sum]) (fun v => [v.sum])
    (fun q => q) 1 1 [(1 : ℚ)] none none (1 / 10 ^ 10) (1 / 10 ^ 16)
    (fun _ => rfl) (fun _ => rfl) rfl rfl (fun _ h => by cases h)

theorem readH_writeH_ne (h : Heap) (a c : Addr) (v : Vec) (hne : c ≠ a) :
    readH (writeH h a v) c = readH h c := by
  unfold readH writeH
  rw [List.getElem?_set_ne (Ne.symm hne)]

theorem readH_append_lt (h l : Heap) (c : Addr) (hc : c < h.length) :
    readH (h ++ l) c = readH h c := by
  unfold readH
  rw [List.getElem?_append_left hc]

/-- A CG loop whose every iteration keeps the solution address fixed and
writes the heap only at that address leaves every other cell unchanged
across the whole fold. -/
theorem foldl_heap_frame (f : HCgState → ℕ → HCgState)
    (hf : ∀ st k, (f st k).x = st.x
      ∧ ∀ c, c ≠ st.x → readH (f st k).heap c = readH st.heap c) :
    ∀ (l : List ℕ) (st : HCgState),
      ((l.foldl f st).x = st.x)
      ∧ ∀ c, c ≠ st.x → readH (l.foldl f st).heap c = readH st.heap c := by
  intro l
  induction l with
  | nil => intro st; exact ⟨rfl, fun _ _ => rfl⟩
  | cons k l ih =>
    intro st
    obtain ⟨ihx, ihh⟩ := ih (f st k)
    obtain ⟨hfx, hfh⟩ := hf st k
    rw [List.foldl_cons]
    refine ⟨by rw [ihx, hfx], fun c hc => ?_⟩
    rw [ihh c (by rw [hfx]; exact hc), hfh c hc]

theorem cg_heap_step_frame (dyx dxy : Vec → Vec) (lr_x lr_y rt atl : ℚ)
    (st : HCgState) (k : ℕ) :
    (cg_heap_step dyx dxy lr_x lr_y rt atl st k).x = st.x
    ∧ ∀ c, c ≠ st.x →
      readH (cg_heap_step dyx dxy lr_x lr_y rt atl st k).heap c
        = readH st.heap c := by
  by_cases hd : st.done
  · simp [cg_heap_step, hd]
  · simp only [cg_heap_step, hd, Bool.false_eq_true, if_false]
    exact ⟨by trivial, fun c hc => readH_writeH_ne _ _ _ _ hc⟩

theorem gcg_heap_step_frame (dyx dxy : Vec → Vec) (lr_x lr_y : Vec)
    (rt atl : ℚ) (st : HCgState) (k : ℕ) :
    (gcg_heap_step dyx dxy lr_x lr_y rt atl st k).x = st.x
    ∧ ∀ c, c ≠ st.x →
      readH (gcg_heap_step dyx dxy lr_x lr_y rt atl st k).heap c
        = readH st.heap c := by
  by_cases hd : st.done
  · simp [gcg_heap_step, hd]
  · simp only [gcg_heap_step, hd, Bool.false_eq_true, if_false]
    exact ⟨by trivial, fun c hc => readH_writeH_ne _ _ _ _ hc⟩

theorem cg_heap_props (dyx dxy : Vec → Vec) (gxlen : ℕ) (h0 : Heap)
    (b : Addr) (x0 : Option Addr) (nsteps0 : Option ℕ)
    (tol atol lr_x lr_y : ℚ) :
    (∀ c, c < h0.length → (∀ xa, x0 = some xa → c ≠ xa) →
      readH (conjugate_gradient_heap dyx dxy gxlen h0 b x0 nsteps0 tol atol
        lr_x lr_y).1 c = readH h0 c)
    ∧ (∀ xa a k, x0 = some xa →
      (conjugate_gradient_heap dyx dxy gxlen h0 b x0 nsteps0 tol atol
        lr_x lr_y).2 = .ok (a, k) → a = xa) := by
  cases hx0 : x0 with
  | none =>
    refine ⟨fun c hc _ => ?_, fun xa a k hxa _ => by cases hxa⟩
    simp only [conjugate_gradient_heap]
    split
    · exact readH_append_lt h0 _ c hc
    · split
      · rw [(foldl_heap_frame _
          (cg_heap_step_frame dyx dxy lr_x lr_y _ _) _ _).2 c
            (Nat.ne_of_lt hc)]
        exact readH_append_lt h0 _ c hc
      · rw [(foldl_heap_frame _
          (cg_heap_step_frame dyx dxy lr_x lr_y _ _) _ _).2 c
            (Nat.ne_of_lt hc)]
        exact readH_append_lt h0 _ c hc
  | some xa =>
    constructor
    · intro c hc hne
      have hcx : c ≠ xa := hne xa rfl
      simp only [conjugate_gradient_heap]
      split
      · rfl
      · split
        · exact (foldl_heap_frame _
            (cg_heap_step_frame dyx dxy lr_x lr_y _ _) _ _).2 c hcx
        · exact (foldl_heap_frame _
            (cg_heap_step_frame dyx dxy lr_x lr_y _ _) _ _).2 c hcx
    · intro xa' a k hxa' heq
      obtain rfl : xa' = xa := by injection hxa' with h; exact h.symm
      simp only [conjugate_gradient_heap] at heq
      split at heq
      · simp only [Except.ok.injEq, Prod.mk.injEq] at heq
        exact heq.1.symm
      · split at heq
        · cases heq
        · simp only [Except.ok.injEq, Prod.mk.injEq] at heq
          rw [← heq.1]
          exact (foldl_heap_frame _
            (cg_heap_step_frame dyx dxy lr_x lr_y _ _) _ _).1

theorem gcg_heap_props (dyx dxy : Vec → Vec) (sqrtFn : ℚ → ℚ) (gxlen : ℕ)
    (h0 : Heap) (b : Addr) (lr_x0 lr_y : Vec) (x0 : Option Addr)
    (nsteps0 : Option ℕ) (tol atol : ℚ) :
    (∀ c, c < h0.length → (∀ xa, x0 = some xa → c ≠ xa) →
      readH (general_conjugate_gradient_heap dyx dxy sqrtFn gxlen h0 b
        lr_x0 lr_y x0 nsteps0 tol atol).1 c = readH h0 c)
    ∧ (∀ xa a k, x0 = some xa →
      (general_conjugate_gradient_heap dyx dxy sqrtFn gxlen h0 b
        lr_x0 lr_y x0 nsteps0 tol atol).2 = .ok (a, k) → a = xa) := by
  cases hx0 : x0 with
  | none =>
    refine ⟨fun c hc _ => ?_, fun xa a k hxa _ => by cases hxa⟩
    simp only [general_conjugate_gradient_heap]
    split
    · exact readH_append_lt h0 _ c hc
    · split
      · exact readH_append_lt h0 _ c hc
      · split
        · rw [(foldl_heap_frame _
            (gcg_heap_step_frame dyx dxy _ _ _ _) _ _).2 c
              (Nat.ne_of_lt hc)]
          exact readH_append_lt h0 _ c hc
        · rw [(foldl_heap_frame _
            (gcg_heap_step_frame dyx dxy _ _ _ _) _ _).2 c
              (Nat.ne_of_lt hc)]
          exact readH_append_lt h0 _ c hc
  | some xa =>
    constructor
    · intro c hc hne
      have hcx : c ≠ xa := hne xa rfl
      simp only [general_conjugate_gradient_heap]
      split
      · rfl
      · split
        · rfl
        · split
          · exact (foldl_heap_frame _
              (gcg_heap_step_frame dyx dxy _ _ _ _) _ _).2 c hcx
          · exact (foldl_heap_frame _
              (gcg_heap_step_frame dyx dxy _ _ _ _) _ _).2 c hcx
    · intro xa' a k hxa' heq
      obtain rfl : xa' = xa := by injection hxa' with h; exact h.symm
      simp only [general_conjugate_gradient_heap] at heq
      split at heq
      · cases heq
      · split at heq
        · simp only [Except.ok.injEq, Prod.mk.injEq] at heq
          exact heq.1.symm
        · split at heq
          · cases heq
          · simp only [Except.ok.injEq, Prod.mk.injEq] at heq
            rw [← heq.1]
            exact (foldl_heap_frame _
              (gcg_heap_step_frame dyx dxy _ _ _ _) _ _).1

/-- C10: frame effects of both solver variants over the store model.
Every heap cell of the caller other than a supplied warm-start buffer is
left unchanged by a solve — in particular the right-hand side b, which
is only read (always through b.clone() or torch.dot), is never modified.
A supplied warm-start tensor is the only buffer written (in place, by
x.data.add_), and on success the returned solution address is that same
warm-start address, so the caller's warm-start buffer holds the
solution after the call. -/
theorem solvers_frame_effects :
    (∀ (dyx dxy : Vec → Vec) (gxlen : ℕ) (h0 : Heap) (b : Addr)
        (x0 : Option Addr) (nsteps0 : Option ℕ) (tol atol lr_x lr_y : ℚ),
      (∀ c, c < h0.length → (∀ xa, x0 = some xa → c ≠ xa) →
        readH (conjugate_gradient_heap dyx dxy gxlen h0 b x0 nsteps0 tol
          atol lr_x lr_y).1 c = readH h0 c)
      ∧ (∀ xa a k, x0 = some xa →
        (conjugate_gradient_heap dyx dxy gxlen h0 b x0 nsteps0 tol atol
          lr_x lr_y).2 = .ok (a, k) → a = xa))
    ∧ (∀ (dyx dxy : Vec → Vec) (sqrtFn : ℚ → ℚ) (gxlen : ℕ) (h0 : Heap)
        (b : Addr) (lr_x0 lr_y : Vec) (x0 : Option Addr)
        (nsteps0 : Option ℕ) (tol atol : ℚ),
      (∀ c, c < h0.length → (∀ xa, x0 = some xa → c ≠ xa) →
        readH (general_conjugate_gradient_heap dyx dxy sqrtFn gxlen h0 b
          lr_x0 lr_y x0 nsteps0 tol atol).1 c = readH h0 c)
      ∧ (∀ xa a k, x0 = some xa →
        (general_conjugate_gradient_heap dyx dxy sqrtFn gxlen h0 b lr_x0
          lr_y x0 nsteps0 tol atol).2 = .ok (a, k) → a = xa)) :=
  ⟨fun dyx dxy gxlen h0 b x0 nsteps0 tol atol lr_x lr_y =>
    cg_heap_props dyx dxy gxlen h0 b x0 nsteps0 tol atol lr_x lr_y,
  fun dyx dxy sqrtFn gxlen h0 b lr_x0 lr_y x0 nsteps0 tol atol =>
    gcg_heap_props dyx dxy sqrtFn gxlen h0 b lr_x0 lr_y x0 nsteps0 tol atol⟩

/-- Witness for C10: a two-cell heap, b at address 0, warm start at
address 1; the solve leaves the b cell untouched. -/
theorem solvers_frame_effects_witness :
    readH (conjugate_gradient_heap (fun v => v) (fun v => v) 1
        [[(1 : ℚ)], [(2 : ℚ)]] 0 (some 1) none 0 0 1 1).1 0
      = readH [[(1 : ℚ)], [(2 : ℚ)]] 0 :=
  (solvers_frame_effects.1 (fun v => v) (fun v => v) 1
      [[(1 : ℚ)], [(2 : ℚ)]] 0 (some 1) none 0 0 1 1).1 0 (by decide)
    (fun xa hxa => by injection hxa with h; subst h; decide)
